import Mathlib

/-
Verification of the session/connection management layer and the per-queue
job processing engine of a beanstalkd-style work-queue client
(src/queues.js).  The JavaScript source is shallowly embedded: each
method becomes a pure Lean function over explicit inputs standing for the
broker's and transport's observable behaviour, and the theorems settle
the specification's claims against those functions.
-/

namespace Ironium

/-- A JavaScript error value, identified by its message string.  The source
compares errors against the sentinel strings TIMED_OUT and NOT_FOUND either
directly (fivebeans rejects with plain strings) or via the message field;
both collapse to a comparison of this message. -/
structure Err where
  msg : String
deriving DecidableEq

/-- The canonical timeout condition used by Session.request on close. -/
def timedOutErr : Err := ⟨"TIMED_OUT"⟩

instance {ε α : Type} [DecidableEq ε] [DecidableEq α] : DecidableEq (Except ε α)
  | .ok a, .ok b => decidable_of_iff (a = b) (by simp)
  | .error a, .error b => decidable_of_iff (a = b) (by simp)
  | .ok _, .error _ => isFalse (fun h => Except.noConfusion h)
  | .error _, .ok _ => isFalse (fun h => Except.noConfusion h)

/-- Broker commands issued by the client, with their positional arguments,
as they appear in src/queues.js. -/
inductive Cmd where
  | put (priority delay ttr : Nat) (payload : String)
  | reserveWithTimeout (seconds : Nat)
  | destroy (jobID : Nat)
  | release (jobID priority delay : Nat)
deriving DecidableEq

namespace Session

/-- The value a Session.request resolves with: results[0] (possibly
undefined, hence Option) when the callback delivered at most one result,
or the whole result array when it delivered several. -/
inductive ReqValue where
  | single (v : Option String)
  | multi (vs : List String)
deriving DecidableEq

/-- The first transport-level event observed by an in-flight request after
the connection is ready: the command's own completion callback, a close
event, or an error event.  Fivebeans never surfaces a connection drop
through the command callback, so the request races the command against
these lifecycle events. -/
inductive TransportEvent where
  | completed (r : Except Err (List String))
  | closed
  | errored (e : Err)

/-- Session.request (src/queues.js lines 64-101).  First the connection is
awaited; a connect failure rejects the request with that failure.  With an
open client, whichever of the three transport events fires first decides
the outcome: the close observer rejects with the canonical TIMED_OUT
error, the error observer rejects with the transport error itself, and the
command callback resolves with the single result or the result array, or
rejects with the broker-reported error. -/
def request (connectR : Except Err Nat) (ev : TransportEvent) : Except Err ReqValue :=
  match connectR with
  | .error e => .error e
  | .ok _client =>
    match ev with
    | .closed => .error timedOutErr
    | .errored e => .error e
    | .completed (.error e) => .error e
    | .completed (.ok results) =>
        if results.length > 1 then .ok (.multi results) else .ok (.single results.head?)

/-- Outcome of one execution of the Session.connect generator. -/
inductive ConnectResult where
  | hang
  | ok (client : Nat)
  | err (e : Err)
deriving DecidableEq

/-- Observable effects of one execution of Session.connect: the result the
caller sees (if any), the stored `_client` field afterwards, whether a new
fivebeans client was opened, and whether `end()` was invoked on it. -/
structure ConnectOutcome where
  result : ConnectResult
  stored : Option Nat
  openedNew : Bool
  endedNew : Bool
deriving DecidableEq

/-- Session.connect (src/queues.js lines 105-158), for a single
uninterleaved execution.  `stored` is the `_client` field on entry,
`fresh` names the new fivebeans client that would be opened,
`transportConnects` says whether the TCP connect succeeds (the external
transport emits `connect`) or fails (it emits `error`), and
`authResult`/`setupResult` give the outcomes of the authenticate and
setup steps.  If a client is already stored it is returned at once.  A
transport-level connect failure fires the session error listener, which
ends the client, but nothing ever resumes the generator parked on the
connect event: the caller observes no result at all.  Auth and setup
failures are thrown into the generator, whose catch block ends the client
and rethrows.  Only a fully set-up client is stored. -/
def connect (stored : Option Nat) (fresh : Nat) (transportConnects : Except Err Unit)
    (authenticate : Bool) (authResult : Except Err Unit)
    (setupResult : Except Err Unit) : ConnectOutcome :=
  match stored with
  | some c => ⟨.ok c, some c, false, false⟩
  | none =>
    match transportConnects with
    | .error _e => ⟨.hang, none, true, true⟩
    | .ok _ =>
      match (if authenticate then authResult else .ok ()) with
      | .error e => ⟨.err e, none, true, true⟩
      | .ok _ =>
        match setupResult with
        | .error e => ⟨.err e, none, true, true⟩
        | .ok _ => ⟨.ok fresh, some fresh, true, false⟩

/-- Session state shared by all callers of connect: the `_client` field, a
supply of fresh client identities, and the list of fivebeans clients
opened so far (in order). -/
structure SessState where
  client : Option Nat
  nextId : Nat
  opened : List Nat
deriving DecidableEq

/-- Where one caller's connect execution currently stands: not started,
suspended mid-attempt after opening client `c` (awaiting the connect
event, authentication and setup), or finished holding client `c`. -/
inductive CallerPC where
  | start
  | midway (c : Nat)
  | done (c : Nat)
deriving DecidableEq

/-- The synchronous prefix of Session.connect: check `_client` — if set,
return it immediately without opening anything; otherwise open a new
fivebeans client and suspend.  `_client` is left unset while the attempt
is in flight (the source only assigns it after setup succeeds). -/
def connectBegin (s : SessState) : CallerPC × SessState :=
  match s.client with
  | some c => (.done c, s)
  | none =>
    (.midway s.nextId,
      { s with nextId := s.nextId + 1, opened := s.opened ++ [s.nextId] })

/-- The resumption of a suspended connect attempt after its connect event,
authentication and setup succeed: store the client (overwriting whatever
is there) and return it. -/
def connectFinish (pc : CallerPC) (s : SessState) : CallerPC × SessState :=
  match pc with
  | .midway c => (.done c, { s with client := some c })
  | pc => (pc, s)

/-- Two callers A and B whose connect attempts overlap: A begins and
suspends, B begins and suspends, then each finishes.  Returns A's handle,
B's handle, and the final session state. -/
def twoOverlapping : CallerPC × CallerPC × SessState :=
  let s0 : SessState := ⟨none, 0, []⟩
  let r1 := connectBegin s0
  let r2 := connectBegin r1.2
  let r3 := connectFinish r1.1 r2.2
  let r4 := connectFinish r2.1 r3.2
  (r3.1, r4.1, r4.2)

/-- Two callers whose connect attempts do not overlap: A begins and
finishes, then B begins.  Returns A's handle, B's handle, and the final
session state. -/
def twoSequential : CallerPC × CallerPC × SessState :=
  let s0 : SessState := ⟨none, 0, []⟩
  let r1 := connectBegin s0
  let r2 := connectFinish r1.1 r1.2
  let r3 := connectBegin r2.2
  (r2.1, r3.1, r3.2)

end Session

/-! ## JSON payloads

The source serializes jobs with JSON.stringify and decodes payloads with
JSON.parse, falling back to the raw text when parsing fails.  The platform
JSON functions are embedded here over the standard JSON value tree
(numbers restricted to integers; JavaScript doubles are out of scope of
the embedding): `stringifyVal` emits exactly what JSON.stringify emits for
such values (no whitespace, the standard two-character escapes, and
lowercase u-escapes for the remaining control characters), and the fueled
parser `parseVal` accepts that grammar. -/

mutual

inductive Json where
  | null : Json
  | bool (b : Bool) : Json
  | num (n : Int) : Json
  | str (s : String) : Json
  | arr (elems : JsonArr) : Json
  | obj (fields : JsonObj) : Json

inductive JsonArr where
  | nil : JsonArr
  | cons (hd : Json) (tl : JsonArr) : JsonArr

inductive JsonObj where
  | nil : JsonObj
  | cons (key : String) (val : Json) (tl : JsonObj) : JsonObj

end

/-- Decimal digit character. -/
def digitChar (k : Nat) : Char := Char.ofNat (48 + k)

/-- Numeric value of a decimal digit character. -/
def digitVal (c : Char) : Nat := c.toNat - 48

/-- Is this character a decimal digit? -/
def isDig (c : Char) : Bool := 48 ≤ c.toNat && c.toNat ≤ 57

/-- Decimal representation of a natural number, most significant digit
first. -/
def natChars (n : Nat) : List Char :=
  if _h : n < 10 then [digitChar n]
  else natChars (n / 10) ++ [digitChar (n % 10)]
termination_by n
decreasing_by exact Nat.div_lt_self (by omega) (by omega)

/-- Decimal representation of an integer. -/
def intChars (n : Int) : List Char :=
  if n < 0 then '-' :: natChars n.natAbs else natChars n.toNat

/-- Lowercase hexadecimal digit character. -/
def hexDigitChar (k : Nat) : Char := Char.ofNat (if k < 10 then 48 + k else 87 + k)

/-- Numeric value of a hexadecimal digit character (either case). -/
def hexVal (c : Char) : Option Nat :=
  if 48 ≤ c.toNat && c.toNat ≤ 57 then some (c.toNat - 48)
  else if 97 ≤ c.toNat && c.toNat ≤ 102 then some (c.toNat - 87)
  else if 65 ≤ c.toNat && c.toNat ≤ 70 then some (c.toNat - 55)
  else none

/-- How JSON.stringify renders one character inside a string literal. -/
def escapeChar (c : Char) : List Char :=
  if c = '"' then ['\\', '"']
  else if c = '\\' then ['\\', '\\']
  else if c = '\n' then ['\\', 'n']
  else if c = '\t' then ['\\', 't']
  else if c = '\r' then ['\\', 'r']
  else if c = '\x08' then ['\\', 'b']
  else if c = '\x0c' then ['\\', 'f']
  else if c.toNat < 32 then
    ['\\', 'u', '0', '0', hexDigitChar (c.toNat / 16), hexDigitChar (c.toNat % 16)]
  else [c]

/-- JSON string-body escaping, character by character. -/
def escapeList : List Char → List Char
  | [] => []
  | c :: cs => escapeChar c ++ escapeList cs

mutual

/-- The characters JSON.stringify emits for a value. -/
def stringifyVal : Json → List Char
  | .null => "null".data
  | .bool true => "true".data
  | .bool false => "false".data
  | .num n => intChars n
  | .str s => '"' :: (escapeList s.data ++ ['"'])
  | .arr es => '[' :: stringifyElems es
  | .obj fs => '\x7b' :: stringifyFields fs

/-- Array elements, comma separated, up to and including the closing
bracket. -/
def stringifyElems : JsonArr → List Char
  | .nil => [']']
  | .cons x .nil => stringifyVal x ++ [']']
  | .cons x (.cons y tl) => stringifyVal x ++ ',' :: stringifyElems (.cons y tl)

/-- Object members, comma separated, up to and including the closing
brace. -/
def stringifyFields : JsonObj → List Char
  | .nil => ['\x7d']
  | .cons k v .nil =>
      '"' :: (escapeList k.data ++ '"' :: ':' :: (stringifyVal v ++ ['\x7d']))
  | .cons k v (.cons k2 v2 tl) =>
      '"' :: (escapeList k.data ++ '"' :: ':' ::
        (stringifyVal v ++ ',' :: stringifyFields (.cons k2 v2 tl)))

end

/-- Prepend a character to the string being accumulated by the string-body
parser. -/
def consStr (c : Char) : Option (List Char × List Char) → Option (List Char × List Char) :=
  Option.map (fun p => (c :: p.1, p.2))

/-- Parse the body of a JSON string literal (the opening quote already
consumed) up to its closing quote, decoding escapes. -/
def parseStrChars : List Char → Option (List Char × List Char)
  | [] => none
  | c :: rest =>
    if c = '"' then some ([], rest)
    else if c = '\\' then
      match rest with
      | [] => none
      | e :: rest1 =>
        if e = '"' then consStr '"' (parseStrChars rest1)
        else if e = '\\' then consStr '\\' (parseStrChars rest1)
        else if e = '/' then consStr '/' (parseStrChars rest1)
        else if e = 'n' then consStr '\n' (parseStrChars rest1)
        else if e = 't' then consStr '\t' (parseStrChars rest1)
        else if e = 'r' then consStr '\r' (parseStrChars rest1)
        else if e = 'b' then consStr '\x08' (parseStrChars rest1)
        else if e = 'f' then consStr '\x0c' (parseStrChars rest1)
        else if e = 'u' then
          match rest1 with
          | h1 :: h2 :: h3 :: h4 :: rest2 =>
            match hexVal h1, hexVal h2, hexVal h3, hexVal h4 with
            | some a, some b, some c2, some d =>
                consStr (Char.ofNat (((a * 16 + b) * 16 + c2) * 16 + d)) (parseStrChars rest2)
            | _, _, _, _ => none
          | _ => none
        else none
    else consStr c (parseStrChars rest)

/-- Consume a maximal run of decimal digits, folding them onto an
accumulator. -/
def takeDigits : List Char → Nat → Nat × List Char
  | [], acc => (acc, [])
  | c :: cs, acc =>
    if isDig c then takeDigits cs (acc * 10 + digitVal c) else (acc, c :: cs)

/-- Parse a nonempty run of decimal digits as a natural number. -/
def parseNatRun (cs : List Char) : Option (Nat × List Char) :=
  match cs with
  | c :: _ => if isDig c then some (takeDigits cs 0) else none
  | [] => none

/-- Match an expected literal character sequence. -/
def expect : List Char → List Char → Option (List Char)
  | [], cs => some cs
  | p :: ps, c :: cs => if c = p then expect ps cs else none
  | _ :: _, [] => none

mutual

/-- Fueled recursive-descent parser for one JSON value. -/
def parseVal : Nat → List Char → Option (Json × List Char)
  | 0, _ => none
  | fuel + 1, cs =>
    match cs with
    | [] => none
    | c :: rest =>
      if c = 'n' then (expect ['u', 'l', 'l'] rest).map (fun r => (.null, r))
      else if c = 't' then (expect ['r', 'u', 'e'] rest).map (fun r => (.bool true, r))
      else if c = 'f' then (expect ['a', 'l', 's', 'e'] rest).map (fun r => (.bool false, r))
      else if c = '"' then (parseStrChars rest).map (fun p => (.str (String.mk p.1), p.2))
      else if c = '[' then (parseElems fuel rest).map (fun p => (.arr p.1, p.2))
      else if c = '\x7b' then (parseFields fuel rest).map (fun p => (.obj p.1, p.2))
      else if c = '-' then (parseNatRun rest).map (fun p => (.num (-(p.1 : Int)), p.2))
      else if isDig c then (parseNatRun (c :: rest)).map (fun p => (.num (p.1 : Int), p.2))
      else none

/-- Fueled parser for the tail of a JSON array (after the opening
bracket). -/
def parseElems : Nat → List Char → Option (JsonArr × List Char)
  | 0, _ => none
  | fuel + 1, cs =>
    match cs with
    | [] => none
    | c :: rest =>
      if c = ']' then some (.nil, rest)
      else
        match parseVal fuel (c :: rest) with
        | none => none
        | some (v, rest1) =>
          match rest1 with
          | ',' :: rest2 => (parseElems fuel rest2).map (fun p => (.cons v p.1, p.2))
          | ']' :: rest2 => some (.cons v .nil, rest2)
          | _ => none

/-- Fueled parser for the tail of a JSON object (after the opening
brace). -/
def parseFields : Nat → List Char → Option (JsonObj × List Char)
  | 0, _ => none
  | fuel + 1, cs =>
    match cs with
    | [] => none
    | c :: rest =>
      if c = '\x7d' then some (.nil, rest)
      else if c = '"' then
        match parseStrChars rest with
        | none => none
        | some (kcs, rest1) =>
          match rest1 with
          | ':' :: rest2 =>
            match parseVal fuel rest2 with
            | none => none
            | some (v, rest3) =>
              match rest3 with
              | ',' :: rest4 =>
                  (parseFields fuel rest4).map (fun p => (.cons (String.mk kcs) v p.1, p.2))
              | '\x7d' :: rest4 => some (.cons (String.mk kcs) v .nil, rest4)
              | _ => none
          | _ => none
      else none

end

/-- JSON.stringify on the embedded value tree. -/
def jsonStringify (v : Json) : String := String.mk (stringifyVal v)

/-- JSON.parse on the embedded value tree: a parse succeeds only when it
consumes the whole input. -/
def jsonParse (s : String) : Option Json :=
  match parseVal (2 * s.data.length + 2) s.data with
  | some (v, []) => some v
  | _ => none

/-- Does this character sequence not begin with a decimal digit?  The
continuation after a stringified number always satisfies this, which is
what makes number parsing unambiguous. -/
def headNotDigit : List Char → Bool
  | [] => true
  | c :: _ => !isDig c

/-- 10 to the number of decimal digits of `n`. -/
def tenPow (n : Nat) : Nat :=
  if _h : n < 10 then 10 else tenPow (n / 10) * 10
termination_by n
decreasing_by exact Nat.div_lt_self (by omega) (by omega)

theorem digitChar_props : ∀ k : Fin 10,
    isDig (digitChar k.val) = true ∧ digitVal (digitChar k.val) = k.val := by decide

theorem isDig_digitChar {k : Nat} (h : k < 10) : isDig (digitChar k) = true :=
  (digitChar_props ⟨k, h⟩).1

theorem digitVal_digitChar {k : Nat} (h : k < 10) : digitVal (digitChar k) = k :=
  (digitChar_props ⟨k, h⟩).2

theorem natChars_head (n : Nat) : ∃ c cs, natChars n = c :: cs ∧ isDig c = true := by
  induction n using Nat.strong_induction_on with
  | _ n ih =>
    rw [natChars]
    by_cases h : n < 10
    · exact ⟨digitChar n, [], by simp [h], isDig_digitChar h⟩
    · obtain ⟨c, cs, hc, hd⟩ := ih (n / 10) (Nat.div_lt_self (by omega) (by omega))
      exact ⟨c, cs ++ [digitChar (n % 10)], by simp [h, hc], hd⟩

theorem takeDigits_stop {rest : List Char} (h : headNotDigit rest = true) (acc : Nat) :
    takeDigits rest acc = (acc, rest) := by
  cases rest with
  | nil => rfl
  | cons c cs =>
    have hc : isDig c = false := by simpa [headNotDigit] using h
    simp [takeDigits, hc]

theorem takeDigits_natChars (n : Nat) : ∀ (acc : Nat) (rest : List Char),
    takeDigits (natChars n ++ rest) acc = takeDigits rest (acc * tenPow n + n) := by
  induction n using Nat.strong_induction_on with
  | _ n ih =>
    intro acc rest
    rw [natChars, tenPow]
    by_cases h : n < 10
    · simp [h, takeDigits, isDig_digitChar h, digitVal_digitChar h]
    · simp only [dif_neg h]
      rw [List.append_assoc, ih (n / 10) (Nat.div_lt_self (by omega) (by omega))]
      have h10 : n % 10 < 10 := Nat.mod_lt _ (by omega)
      simp only [List.singleton_append, takeDigits, isDig_digitChar h10,
        digitVal_digitChar h10, if_pos]
      congr 1
      rw [← Nat.mul_assoc]
      have hdm := Nat.div_add_mod n 10
      generalize acc * tenPow (n / 10) = A at *
      omega

theorem parseNatRun_natChars (n : Nat) {rest : List Char} (h : headNotDigit rest = true) :
    parseNatRun (natChars n ++ rest) = some (n, rest) := by
  obtain ⟨c, cs, hc, hd⟩ := natChars_head n
  have hsplit : natChars n ++ rest = c :: (cs ++ rest) := by rw [hc]; rfl
  rw [hsplit, parseNatRun, if_pos hd, ← hsplit, takeDigits_natChars, takeDigits_stop h]
  simp

theorem hexVal_hexDigitChar : ∀ k : Fin 16, hexVal (hexDigitChar k.val) = some k.val := by
  decide

theorem parseStrChars_default {c : Char} (hq : ¬ c = '"') (hb : ¬ c = '\\')
    (rest : List Char) : parseStrChars (c :: rest) = consStr c (parseStrChars rest) := by
  rw [parseStrChars.eq_def]
  simp only []
  rw [if_neg hq, if_neg hb]

theorem parseStrChars_close (rest : List Char) :
    parseStrChars ('"' :: rest) = some ([], rest) := by
  rw [parseStrChars.eq_def]
  simp

theorem parseStrChars_escQuote (t : List Char) :
    parseStrChars ('\\' :: '"' :: t) = consStr '"' (parseStrChars t) := by
  rw [parseStrChars.eq_def]; simp

theorem parseStrChars_escBackslash (t : List Char) :
    parseStrChars ('\\' :: '\\' :: t) = consStr '\\' (parseStrChars t) := by
  rw [parseStrChars.eq_def]; simp

theorem parseStrChars_escN (t : List Char) :
    parseStrChars ('\\' :: 'n' :: t) = consStr '\n' (parseStrChars t) := by
  rw [parseStrChars.eq_def]; simp

theorem parseStrChars_escT (t : List Char) :
    parseStrChars ('\\' :: 't' :: t) = consStr '\t' (parseStrChars t) := by
  rw [parseStrChars.eq_def]; simp

theorem parseStrChars_escR (t : List Char) :
    parseStrChars ('\\' :: 'r' :: t) = consStr '\r' (parseStrChars t) := by
  rw [parseStrChars.eq_def]; simp

theorem parseStrChars_escB (t : List Char) :
    parseStrChars ('\\' :: 'b' :: t) = consStr '\x08' (parseStrChars t) := by
  rw [parseStrChars.eq_def]; simp

theorem parseStrChars_escF (t : List Char) :
    parseStrChars ('\\' :: 'f' :: t) = consStr '\x0c' (parseStrChars t) := by
  rw [parseStrChars.eq_def]; simp

theorem parseStrChars_uescape {a b : Char} {z w : Nat}
    (hz : hexVal a = some z) (hw : hexVal b = some w) (t : List Char) :
    parseStrChars ('\\' :: 'u' :: '0' :: '0' :: a :: b :: t)
      = consStr (Char.ofNat (z * 16 + w)) (parseStrChars t) := by
  have h0 : hexVal '0' = some 0 := rfl
  rw [parseStrChars.eq_def]
  simp [h0, hz, hw]

theorem parseStrChars_escape : ∀ (cs rest : List Char),
    parseStrChars (escapeList cs ++ '"' :: rest) = some (cs, rest) := by
  intro cs
  induction cs with
  | nil =>
    intro rest
    show parseStrChars ('"' :: rest) = _
    exact parseStrChars_close rest
  | cons c cs ih =>
    intro rest
    show parseStrChars ((escapeChar c ++ escapeList cs) ++ '"' :: rest) = _
    rw [List.append_assoc]
    rw [escapeChar.eq_def]
    by_cases h1 : c = '"'
    · subst h1
      rw [if_pos rfl]
      show parseStrChars ('\\' :: '"' :: (escapeList cs ++ '"' :: rest)) = _
      rw [parseStrChars_escQuote, ih]; rfl
    · rw [if_neg h1]
      by_cases h2 : c = '\\'
      · subst h2
        rw [if_pos rfl]
        show parseStrChars ('\\' :: '\\' :: (escapeList cs ++ '"' :: rest)) = _
        rw [parseStrChars_escBackslash, ih]; rfl
      · rw [if_neg h2]
        by_cases h3 : c = '\n'
        · subst h3
          rw [if_pos rfl]
          show parseStrChars ('\\' :: 'n' :: (escapeList cs ++ '"' :: rest)) = _
          rw [parseStrChars_escN, ih]; rfl
        · rw [if_neg h3]
          by_cases h4 : c = '\t'
          · subst h4
            rw [if_pos rfl]
            show parseStrChars ('\\' :: 't' :: (escapeList cs ++ '"' :: rest)) = _
            rw [parseStrChars_escT, ih]; rfl
          · rw [if_neg h4]
            by_cases h5 : c = '\r'
            · subst h5
              rw [if_pos rfl]
              show parseStrChars ('\\' :: 'r' :: (escapeList cs ++ '"' :: rest)) = _
              rw [parseStrChars_escR, ih]; rfl
            · rw [if_neg h5]
              by_cases h6 : c = '\x08'
              · subst h6
                rw [if_pos rfl]
                show parseStrChars ('\\' :: 'b' :: (escapeList cs ++ '"' :: rest)) = _
                rw [parseStrChars_escB, ih]; rfl
              · rw [if_neg h6]
                by_cases h7 : c = '\x0c'
                · subst h7
                  rw [if_pos rfl]
                  show parseStrChars ('\\' :: 'f' :: (escapeList cs ++ '"' :: rest)) = _
                  rw [parseStrChars_escF, ih]; rfl
                · rw [if_neg h7]
                  by_cases h8 : c.toNat < 32
                  · rw [if_pos h8]
                    show parseStrChars ('\\' :: 'u' :: '0' :: '0' :: hexDigitChar (c.toNat / 16)
                      :: hexDigitChar (c.toNat % 16) :: (escapeList cs ++ '"' :: rest)) = _
                    rw [parseStrChars_uescape
                        (hexVal_hexDigitChar ⟨c.toNat / 16, by omega⟩)
                        (hexVal_hexDigitChar ⟨c.toNat % 16, by omega⟩), ih]
                    rw [show c.toNat / 16 * 16 + c.toNat % 16 = c.toNat from by omega,
                      Char.ofNat_toNat]
                    rfl
                  · rw [if_neg h8]
                    show parseStrChars (c :: (escapeList cs ++ '"' :: rest)) = _
                    rw [parseStrChars_default h1 h2, ih]; rfl

theorem expect_append (pat : List Char) : ∀ rest, expect pat (pat ++ rest) = some rest := by
  induction pat with
  | nil => intro rest; rfl
  | cons p ps ih => intro rest; simp [expect, ih]

/-- The characters a stringified JSON value can start with. -/
def valHeadOk (c : Char) : Bool :=
  c = 'n' || c = 't' || c = 'f' || c = '"' || c = '[' || c = '\x7b' || c = '-' || isDig c

theorem stringifyVal_head (v : Json) :
    ∃ c cs, stringifyVal v = c :: cs ∧ valHeadOk c = true := by
  cases v with
  | null => exact ⟨'n', "ull".data, rfl, by decide⟩
  | bool b =>
    cases b with
    | true => exact ⟨'t', "rue".data, rfl, by decide⟩
    | false => exact ⟨'f', "alse".data, rfl, by decide⟩
  | num n =>
    by_cases h : n < 0
    · exact ⟨'-', natChars n.natAbs, by simp [stringifyVal, intChars, h], by decide⟩
    · obtain ⟨c, cs, hc, hd⟩ := natChars_head n.toNat
      exact ⟨c, cs, by simp [stringifyVal, intChars, h, hc], by simp [valHeadOk, hd]⟩
  | str s => exact ⟨'"', escapeList s.data ++ ['"'], by simp [stringifyVal], by decide⟩
  | arr es => exact ⟨'[', stringifyElems es, by simp [stringifyVal], by decide⟩
  | obj fs => exact ⟨'\x7b', stringifyFields fs, by simp [stringifyVal], by decide⟩

theorem valHead_ne_rbracket {c : Char} (h : valHeadOk c = true) : ¬ c = ']' := by
  rintro rfl; exact absurd h (by decide)

mutual

/-- Fuel sufficient for the parser to re-read a stringified value. -/
def cost : Json → Nat
  | .null => 1
  | .bool _ => 1
  | .num _ => 1
  | .str _ => 1
  | .arr es => 1 + elemsCost es
  | .obj fs => 1 + fieldsCost fs

/-- Fuel sufficient to re-read a stringified array tail. -/
def elemsCost : JsonArr → Nat
  | .nil => 1
  | .cons x tl => 1 + cost x + elemsCost tl

/-- Fuel sufficient to re-read a stringified object tail. -/
def fieldsCost : JsonObj → Nat
  | .nil => 1
  | .cons _ v tl => 1 + cost v + fieldsCost tl

end

theorem cost_pos (v : Json) : 1 ≤ cost v := by
  cases v <;> simp [cost]

theorem elemsCost_pos (es : JsonArr) : 1 ≤ elemsCost es := by
  cases es with
  | nil => simp [elemsCost]
  | cons x tl => simp [elemsCost]; omega

theorem fieldsCost_pos (fs : JsonObj) : 1 ≤ fieldsCost fs := by
  cases fs with
  | nil => simp [fieldsCost]
  | cons k v tl => simp [fieldsCost]; omega

/-- What the handlers receive for a payload: the parsed JSON value if the
payload parses, otherwise the raw text. -/
inductive Decoded where
  | json (v : Json)
  | text (s : String)

/-- Payload decoding step of Queue._runAndDestroy (src/queues.js lines
321-329): convert the buffer to text, attempt JSON.parse, and fall back
to the raw text if parsing fails. -/
def decodePayload (p : String) : Decoded :=
  match jsonParse p with
  | some v => .json v
  | none => .text p


theorem parseVal_digit {c : Char} (hc : isDig c = true) (f : Nat) (rest : List Char) :
    parseVal (f+1) (c :: rest)
      = (parseNatRun (c :: rest)).map (fun p => (Json.num (p.1 : Int), p.2)) := by
  have h1 : ¬ c = 'n' := by rintro rfl; exact absurd hc (by decide)
  have h2 : ¬ c = 't' := by rintro rfl; exact absurd hc (by decide)
  have h3 : ¬ c = 'f' := by rintro rfl; exact absurd hc (by decide)
  have h4 : ¬ c = '"' := by rintro rfl; exact absurd hc (by decide)
  have h5 : ¬ c = '[' := by rintro rfl; exact absurd hc (by decide)
  have h6 : ¬ c = '\x7b' := by rintro rfl; exact absurd hc (by decide)
  have h7 : ¬ c = '-' := by rintro rfl; exact absurd hc (by decide)
  rw [parseVal.eq_def]
  simp [h1, h2, h3, h4, h5, h6, h7, hc]

theorem parseFields_quote (f : Nat) (t : List Char) :
    parseFields (f+1) ('"' :: t) = (match parseStrChars t with
      | none => none
      | some (kcs, rest1) =>
        match rest1 with
        | ':' :: rest2 =>
          match parseVal f rest2 with
          | none => none
          | some (v, rest3) =>
            match rest3 with
            | ',' :: rest4 =>
                (parseFields f rest4).map (fun p => (JsonObj.cons (String.mk kcs) v p.1, p.2))
            | '\x7d' :: rest4 => some (JsonObj.cons (String.mk kcs) v JsonObj.nil, rest4)
            | _ => none
        | _ => none) := rfl

mutual

theorem parseVal_inv (v : Json) (f : Nat) (rest : List Char)
    (hf : cost v ≤ f + 1) (hr : headNotDigit rest = true) :
    parseVal (f + 1) (stringifyVal v ++ rest) = some (v, rest) := by
  cases v with
  | null => rfl
  | bool b => cases b <;> rfl
  | num n =>
    by_cases h : n < 0
    · rw [show stringifyVal (.num n) ++ rest = '-' :: (natChars n.natAbs ++ rest) from by
        simp [stringifyVal, intChars, h]]
      rw [show parseVal (f+1) ('-' :: (natChars n.natAbs ++ rest))
          = (parseNatRun (natChars n.natAbs ++ rest)).map
              (fun p => (Json.num (-(p.1 : Int)), p.2)) from rfl]
      rw [parseNatRun_natChars _ hr]
      simp only [Option.map_some']
      rw [show (-(n.natAbs : Int)) = n from by omega]
    · rw [show stringifyVal (.num n) ++ rest = natChars n.toNat ++ rest from by
        simp [stringifyVal, intChars, h]]
      obtain ⟨c, cs, hc, hd⟩ := natChars_head n.toNat
      rw [hc, List.cons_append]
      rw [parseVal_digit hd]
      rw [show c :: (cs ++ rest) = natChars n.toNat ++ rest from by rw [hc, List.cons_append]]
      rw [parseNatRun_natChars _ hr]
      simp only [Option.map_some']
      rw [show ((n.toNat : Int)) = n from by omega]
  | str s =>
    rw [show stringifyVal (.str s) ++ rest
        = '"' :: (escapeList s.data ++ '"' :: rest) from by simp [stringifyVal]]
    rw [show parseVal (f+1) ('"' :: (escapeList s.data ++ '"' :: rest))
        = (parseStrChars (escapeList s.data ++ '"' :: rest)).map
            (fun p => (Json.str (String.mk p.1), p.2)) from rfl]
    rw [parseStrChars_escape]
    rfl
  | arr es =>
    have hf' : elemsCost es ≤ f := by simp [cost] at hf; omega
    obtain ⟨g, rfl⟩ : ∃ g, f = g + 1 := ⟨f - 1, by have := elemsCost_pos es; omega⟩
    rw [show stringifyVal (.arr es) ++ rest = '[' :: (stringifyElems es ++ rest) from by
      simp [stringifyVal]]
    rw [show parseVal (g+1+1) ('[' :: (stringifyElems es ++ rest))
        = (parseElems (g+1) (stringifyElems es ++ rest)).map (fun p => (Json.arr p.1, p.2))
        from rfl]
    rw [parseElems_inv es g rest hf']
    rfl
  | obj fs =>
    have hf' : fieldsCost fs ≤ f := by simp [cost] at hf; omega
    obtain ⟨g, rfl⟩ : ∃ g, f = g + 1 := ⟨f - 1, by have := fieldsCost_pos fs; omega⟩
    rw [show stringifyVal (.obj fs) ++ rest = '\x7b' :: (stringifyFields fs ++ rest) from by
      simp [stringifyVal]]
    rw [show parseVal (g+1+1) ('\x7b' :: (stringifyFields fs ++ rest))
        = (parseFields (g+1) (stringifyFields fs ++ rest)).map (fun p => (Json.obj p.1, p.2))
        from rfl]
    rw [parseFields_inv fs g rest hf']
    rfl

theorem parseElems_inv (es : JsonArr) (f : Nat) (rest : List Char)
    (hf : elemsCost es ≤ f + 1) :
    parseElems (f + 1) (stringifyElems es ++ rest) = some (es, rest) := by
  cases es with
  | nil => rfl
  | cons x tl =>
    obtain ⟨g, rfl⟩ : ∃ g, f = g + 1 :=
      ⟨f - 1, by
        have h1 := cost_pos x
        have h2 := elemsCost_pos tl
        simp [elemsCost] at hf
        omega⟩
    cases tl with
    | nil =>
      rw [show stringifyElems (.cons x .nil) ++ rest = stringifyVal x ++ (']' :: rest) from by
        simp [stringifyElems]]
      obtain ⟨c, cs, hc, hh⟩ := stringifyVal_head x
      rw [hc, List.cons_append]
      rw [parseElems.eq_def]
      simp only [if_neg (valHead_ne_rbracket hh)]
      rw [show c :: (cs ++ ']' :: rest) = stringifyVal x ++ (']' :: rest) from by
        rw [hc, List.cons_append]]
      have hx : cost x ≤ g + 1 := by simp [elemsCost] at hf; omega
      rw [parseVal_inv x g (']' :: rest) hx rfl]
      rfl
    | cons y tl2 =>
      rw [show stringifyElems (.cons x (.cons y tl2)) ++ rest
          = stringifyVal x ++ (',' :: (stringifyElems (.cons y tl2) ++ rest)) from by
        simp [stringifyElems]]
      obtain ⟨c, cs, hc, hh⟩ := stringifyVal_head x
      rw [hc, List.cons_append]
      rw [parseElems.eq_def]
      simp only [if_neg (valHead_ne_rbracket hh)]
      rw [show c :: (cs ++ ',' :: (stringifyElems (.cons y tl2) ++ rest))
          = stringifyVal x ++ (',' :: (stringifyElems (.cons y tl2) ++ rest)) from by
        rw [hc, List.cons_append]]
      have hx : cost x ≤ g + 1 := by simp [elemsCost] at hf; omega
      rw [parseVal_inv x g (',' :: (stringifyElems (.cons y tl2) ++ rest)) hx rfl]
      show Option.map (fun p => (JsonArr.cons x p.1, p.2))
        (parseElems (g+1) (stringifyElems (.cons y tl2) ++ rest)) = _
      have htl : elemsCost (.cons y tl2) ≤ g + 1 := by
        simp [elemsCost] at hf ⊢
        omega
      rw [parseElems_inv (.cons y tl2) g rest htl]
      rfl

theorem parseFields_inv (fs : JsonObj) (f : Nat) (rest : List Char)
    (hf : fieldsCost fs ≤ f + 1) :
    parseFields (f + 1) (stringifyFields fs ++ rest) = some (fs, rest) := by
  cases fs with
  | nil => rfl
  | cons k v tl =>
    obtain ⟨g, rfl⟩ : ∃ g, f = g + 1 :=
      ⟨f - 1, by
        have h1 := cost_pos v
        have h2 := fieldsCost_pos tl
        simp [fieldsCost] at hf
        omega⟩
    cases tl with
    | nil =>
      rw [show stringifyFields (.cons k v .nil) ++ rest
          = '"' :: (escapeList k.data ++ '"' :: (':' :: (stringifyVal v ++ ('\x7d' :: rest))))
          from by simp [stringifyFields]]
      rw [parseFields_quote]
      rw [parseStrChars_escape]
      simp only []
      have hv : cost v ≤ g + 1 := by simp [fieldsCost] at hf; omega
      rw [parseVal_inv v g ('\x7d' :: rest) hv rfl]
      rfl
    | cons k2 v2 tl2 =>
      rw [show stringifyFields (.cons k v (.cons k2 v2 tl2)) ++ rest
          = '"' :: (escapeList k.data ++ '"' :: (':' ::
              (stringifyVal v ++ (',' :: (stringifyFields (.cons k2 v2 tl2) ++ rest)))))
          from by simp [stringifyFields]]
      rw [parseFields_quote]
      rw [parseStrChars_escape]
      simp only []
      have hv : cost v ≤ g + 1 := by simp [fieldsCost] at hf; omega
      rw [parseVal_inv v g (',' :: (stringifyFields (.cons k2 v2 tl2) ++ rest)) hv rfl]
      show Option.map (fun p => (JsonObj.cons (String.mk k.data) v p.1, p.2))
        (parseFields (g+1) (stringifyFields (.cons k2 v2 tl2) ++ rest)) = _
      have htl : fieldsCost (.cons k2 v2 tl2) ≤ g + 1 := by
        simp [fieldsCost] at hf ⊢
        omega
      rw [parseFields_inv (.cons k2 v2 tl2) g rest htl]
      rfl

end

theorem intChars_length_pos (n : Int) : 1 ≤ (intChars n).length := by
  unfold intChars
  by_cases h : n < 0
  · simp [h]
  · simp [h]
    obtain ⟨c, cs, hc, _⟩ := natChars_head n.toNat
    simp [hc]

mutual

theorem cost_le_len (v : Json) : cost v ≤ 2 * (stringifyVal v).length := by
  cases v with
  | null =>
    rw [show stringifyVal .null = "null".data from rfl,
      show ("null".data : List Char) = ['n', 'u', 'l', 'l'] from rfl]
    simp [cost]
  | bool b =>
    cases b with
    | true =>
      rw [show stringifyVal (.bool true) = "true".data from rfl,
        show ("true".data : List Char) = ['t', 'r', 'u', 'e'] from rfl]
      simp [cost]
    | false =>
      rw [show stringifyVal (.bool false) = "false".data from rfl,
        show ("false".data : List Char) = ['f', 'a', 'l', 's', 'e'] from rfl]
      simp [cost]
  | num n =>
    have h := intChars_length_pos n
    simp [cost, stringifyVal]
    omega
  | str s => simp [cost, stringifyVal]; omega
  | arr es =>
    have ih := elemsCost_le_len es
    simp [cost, stringifyVal] at ih ⊢
    omega
  | obj fs =>
    have ih := fieldsCost_le_len fs
    simp [cost, stringifyVal] at ih ⊢
    omega

theorem elemsCost_le_len (es : JsonArr) : elemsCost es ≤ 2 * (stringifyElems es).length := by
  cases es with
  | nil => simp [elemsCost, stringifyElems]
  | cons x tl =>
    cases tl with
    | nil =>
      have ih := cost_le_len x
      simp [elemsCost, stringifyElems, elemsCost_pos] at ih ⊢
      omega
    | cons y tl2 =>
      have ih := cost_le_len x
      have ih2 := elemsCost_le_len (.cons y tl2)
      simp [elemsCost, stringifyElems] at ih ih2 ⊢
      omega

theorem fieldsCost_le_len (fs : JsonObj) : fieldsCost fs ≤ 2 * (stringifyFields fs).length := by
  cases fs with
  | nil => simp [fieldsCost, stringifyFields]
  | cons k v tl =>
    cases tl with
    | nil =>
      have ih := cost_le_len v
      simp [fieldsCost, stringifyFields] at ih ⊢
      omega
    | cons k2 v2 tl2 =>
      have ih := cost_le_len v
      have ih2 := fieldsCost_le_len (.cons k2 v2 tl2)
      simp [fieldsCost, stringifyFields] at ih ih2 ⊢
      omega

end

theorem jsonParse_stringify (v : Json) : jsonParse (jsonStringify v) = some v := by
  unfold jsonParse jsonStringify
  rw [show (String.mk (stringifyVal v)).data = stringifyVal v from rfl]
  obtain ⟨g, hg⟩ : ∃ g, 2 * (stringifyVal v).length + 2 = g + 1 :=
    ⟨2 * (stringifyVal v).length + 1, by omega⟩
  rw [hg]
  have h := parseVal_inv v g [] (by have h1 := cost_le_len v; omega) rfl
  rw [List.append_nil] at h
  rw [h]

/-! ## Queue layer -/

/-- A JavaScript value as it may be passed to Queue.push: the primitive
values relevant to the assertion guard, plus structured JSON trees. -/
inductive JsValue where
  | undef
  | nullv
  | boolv (b : Bool)
  | numv (n : Int)
  | nanv
  | strv (s : String)
  | objv (j : Json)

/-- JavaScript truthiness, as tested by `assert(job, ...)`: undefined,
null, false, 0, NaN and the empty string are falsy. -/
def truthy : JsValue → Bool
  | .undef => false
  | .nullv => false
  | .boolv b => b
  | .numv n => n != 0
  | .nanv => false
  | .strv s => s != ""
  | .objv _ => true

/-- JSON.stringify on a JavaScript value (NaN serializes as null; the
undefined case is unreachable behind the push assertion). -/
def jsStringify : JsValue → String
  | .undef => "null"
  | .nullv => "null"
  | .boolv b => jsonStringify (.bool b)
  | .numv n => jsonStringify (.num n)
  | .nanv => "null"
  | .strv s => jsonStringify (.str s)
  | .objv j => jsonStringify j

namespace Queue

/-- PROCESSING_TIMEOUT = ms('10m'), in milliseconds. -/
def PROCESSING_TIMEOUT : Nat := 600000

/-- RESERVE_BACKOFF = ms('30s'), in milliseconds. -/
def RESERVE_BACKOFF : Nat := 30000

/-- RELEASE_DELAY = ms('1m'), in milliseconds. -/
def RELEASE_DELAY : Nat := 60000

/-- The time-to-run passed to put:
Math.floor(PROCESSING_TIMEOUT / 1000) + 1. -/
def timeToRun : Nat := PROCESSING_TIMEOUT / 1000 + 1

/-- How a Queue.push call terminates: the synchronous assertion throw, a
resolved thunk (with no value, in particular no job id), or a rejection
with the put error. -/
inductive PushResult where
  | assertThrow (msg : String)
  | resolved
  | rejected (e : Err)
deriving DecidableEq

/-- Commands issued and final outcome of one Queue.push call. -/
structure PushOutcome where
  commands : List Cmd
  result : PushResult
deriving DecidableEq

/-- Queue.push (src/queues.js lines 190-209): assert the job is truthy,
then issue put with priority 0, delay 0, ttr `timeToRun` and the JSON
serialization of the job; the jobID returned by put is logged and
discarded, so the thunk resolves with no value. -/
def push (job : JsValue) (putR : Except Err Nat) : PushOutcome :=
  if truthy job then
    match putR with
    | .ok _jobID => ⟨[.put 0 0 timeToRun (jsStringify job)], .resolved⟩
    | .error e => ⟨[.put 0 0 timeToRun (jsStringify job)], .rejected e⟩
  else ⟨[], .assertThrow "Missing job to queue"⟩

/-- Log levels of the notify collaborator. -/
inductive LogLevel where
  | debug
  | info
  | error
deriving DecidableEq

/-- Run the registered handlers in order on the decoded payload, counting
how many ran, until the first failure.  Each handler's entry stands for
the outcome of runJob (the spec's Job Runner collaborator: success, or
failure including a handler that exceeded the processing deadline). -/
def runHandlers : List (Decoded → Except Err Unit) → Decoded → Nat → Nat × Option Err
  | [], _, n => (n, none)
  | h :: hs, d, n =>
    match h d with
    | .ok _ => runHandlers hs d (n + 1)
    | .error e => (n + 1, some e)

/-- Observable effects of one Queue._runAndDestroy call. -/
structure RunOutcome where
  commands : List Cmd
  handlersRun : Nat
  logs : List (LogLevel × String)
  result : Except Err Unit
deriving DecidableEq

/-- The release delay (seconds) used by _runAndDestroy:
process.env.NODE_ENV == 'test' ? 0 : Math.floor(RELEASE_DELAY / 1000). -/
def releaseDelaySeconds (testMode : Bool) : Nat :=
  if testMode then 0 else RELEASE_DELAY / 1000

/-- Queue._runAndDestroy (src/queues.js lines 318-355): decode the
payload, run every handler in order, and on all-success issue destroy
(whose own failure is logged at info level and swallowed); on the first
handler failure issue release(jobID, 0, releaseDelaySeconds) and rethrow
the original error (or the release error, if the release request itself
fails). -/
def runAndDestroy (handlers : List (Decoded → Except Err Unit)) (testMode : Bool)
    (jobID : Nat) (payload : String) (destroyR releaseR : Except Err Unit) : RunOutcome :=
  let decoded := decodePayload payload
  let baseLogs : List (LogLevel × String) := [(.info, "processing"), (.debug, "payload")]
  match runHandlers handlers decoded 0 with
  | (n, none) =>
    match destroyR with
    | .ok _ => ⟨[.destroy jobID], n, baseLogs ++ [(.info, "completed")], .ok ()⟩
    | .error _ =>
        ⟨[.destroy jobID], n,
          baseLogs ++ [(.info, "completed"), (.info, "could-not-delete")], .ok ()⟩
  | (n, some e) =>
    match releaseR with
    | .ok _ =>
        ⟨[.release jobID 0 (releaseDelaySeconds testMode)], n,
          baseLogs ++ [(.info, "error-processing")], .error e⟩
    | .error re =>
        ⟨[.release jobID 0 (releaseDelaySeconds testMode)], n,
          baseLogs ++ [(.info, "error-processing")], .error re⟩

/-- What one iteration of the continuous loop observes: a failed
reservation, or a reserved job together with the outcome of its
run-and-acknowledge step. -/
inductive IterEvent where
  | reserveFail (e : Err)
  | reserveOk (jobID : Nat) (payload : String) (runResult : Except Err Unit)

/-- The error the iteration's catch block receives, if any. -/
def iterError : IterEvent → Option Err
  | .reserveFail e => some e
  | .reserveOk _ _ (.error e) => some e
  | .reserveOk _ _ (.ok _) => none

/-- Error-handling effects of one continuous-loop iteration. -/
structure IterOutcome where
  loggedError : Bool
  backoffs : List Nat
deriving DecidableEq

/-- The catch block of Queue._processContinously (src/queues.js lines
298-309): an error whose condition is TIMED_OUT is silently ignored; any
other error is logged via notify.error and followed by exactly one
setTimeout backoff of RESERVE_BACKOFF ms (zero in test mode). -/
def processIteration (testMode : Bool) (ev : IterEvent) : IterOutcome :=
  match iterError ev with
  | none => ⟨false, []⟩
  | some e =>
    if e.msg = "TIMED_OUT" then ⟨false, []⟩
    else ⟨true, [if testMode then 0 else RESERVE_BACKOFF]⟩

/-- What the broker supplies to successive iterations of the once() loop:
either a reservation failure, or a job together with the outcomes of its
destroy and release requests. -/
inductive OnceEvent where
  | reserveFail (e : Err)
  | reserveJob (jobID : Nat) (payload : String)
      (destroyR : Except Err Unit) (releaseR : Except Err Unit)

/-- How a Queue.once call terminates.  `incomplete` is a model artifact
marking that the supplied event script ran out while the loop was still
going. -/
inductive OnceResult where
  | assertThrow (msg : String)
  | value (anyProcessed : Bool)
  | err (e : Err)
  | incomplete
deriving DecidableEq

/-- Final result and issued commands of one Queue.once call. -/
structure OnceOutcome where
  result : OnceResult
  commands : List Cmd
deriving DecidableEq

/-- The while-loop of Queue.once: reserve with zero timeout, run and
acknowledge, and set anyProcessed after each successful job; the catch
returns anyProcessed when the error condition is TIMED_OUT and rethrows
otherwise. -/
def onceLoop (handlers : List (Decoded → Except Err Unit)) (testMode : Bool) :
    List OnceEvent → Bool → List Cmd → OnceOutcome
  | [], _, cmds => ⟨.incomplete, cmds⟩
  | .reserveFail e :: _, any, cmds =>
    if e.msg = "TIMED_OUT" then ⟨.value any, cmds ++ [.reserveWithTimeout 0]⟩
    else ⟨.err e, cmds ++ [.reserveWithTimeout 0]⟩
  | .reserveJob jid p dR rR :: rest, any, cmds =>
    let ro := runAndDestroy handlers testMode jid p dR rR
    let cmds2 := cmds ++ [.reserveWithTimeout 0] ++ ro.commands
    match ro.result with
    | .ok _ => onceLoop handlers testMode rest true cmds2
    | .error e =>
      if e.msg = "TIMED_OUT" then ⟨.value any, cmds2⟩ else ⟨.err e, cmds2⟩

/-- Queue.once (src/queues.js lines 261-282): assert not continuously
processing, return false when no handlers are registered, otherwise run
the reserve/run loop until the idle timeout condition. -/
def once (processing : Bool) (handlers : List (Decoded → Except Err Unit)) (testMode : Bool)
    (script : List OnceEvent) : OnceOutcome :=
  if processing then
    ⟨.assertThrow "Cannot call once while continuously processing jobs", []⟩
  else if handlers.isEmpty then ⟨.value false, []⟩
  else onceLoop handlers testMode script false []

/-- Turn a list of (jobID, payload) pairs into once-loop events whose
destroy and release requests succeed. -/
def jobsToEvents (jobs : List (Nat × String)) : List OnceEvent :=
  jobs.map (fun j => .reserveJob j.1 j.2 (.ok ()) (.ok ()))

theorem runHandlers_allOk (d : Decoded) :
    ∀ (hs : List (Decoded → Except Err Unit)), (∀ h ∈ hs, h d = .ok ()) →
    ∀ n, runHandlers hs d n = (n + hs.length, none) := by
  intro hs
  induction hs with
  | nil => intro _ n; simp [runHandlers]
  | cons h hs ih =>
    intro hall n
    have hh : h d = .ok () := hall h (by simp)
    simp only [runHandlers, hh]
    rw [ih (fun g hg => hall g (by simp [hg])) (n + 1)]
    have : n + 1 + hs.length = n + (hs.length + 1) := by omega
    rw [this]
    simp

theorem runHandlers_firstFail (d : Decoded) (e : Err)
    (hFail : Decoded → Except Err Unit) (hf : hFail d = .error e)
    (post : List (Decoded → Except Err Unit)) :
    ∀ (pre : List (Decoded → Except Err Unit)), (∀ h ∈ pre, h d = .ok ()) →
    ∀ n, runHandlers (pre ++ hFail :: post) d n = (n + pre.length + 1, some e) := by
  intro pre
  induction pre with
  | nil => intro _ n; simp [runHandlers, hf]
  | cons h pre ih =>
    intro hall n
    have hh : h d = .ok () := hall h (by simp)
    simp only [List.cons_append, runHandlers, hh, List.append_eq]
    rw [ih (fun g hg => hall g (by simp [hg])) (n + 1)]
    have : n + 1 + pre.length + 1 = n + (pre.length + 1) + 1 := by omega
    rw [this]
    simp

theorem runAndDestroy_allOk (handlers : List (Decoded → Except Err Unit))
    (testMode : Bool) (jid : Nat) (p : String) (destroyR releaseR : Except Err Unit)
    (hall : ∀ h ∈ handlers, h (decodePayload p) = .ok ()) :
    (runAndDestroy handlers testMode jid p destroyR releaseR).commands = [.destroy jid] ∧
    (runAndDestroy handlers testMode jid p destroyR releaseR).result = .ok () ∧
    (runAndDestroy handlers testMode jid p destroyR releaseR).handlersRun
      = handlers.length := by
  have h := runHandlers_allOk (decodePayload p) handlers hall 0
  cases destroyR <;> simp [runAndDestroy, h]

theorem onceLoop_allOk (handlers : List (Decoded → Except Err Unit)) (testMode : Bool)
    (hok : ∀ h ∈ handlers, ∀ d, h d = .ok ()) :
    ∀ (jobs : List (Nat × String)) (any : Bool) (cmds : List Cmd),
    onceLoop handlers testMode (jobsToEvents jobs ++ [.reserveFail timedOutErr]) any cmds
      = ⟨.value (any || !jobs.isEmpty),
          cmds ++ ((jobs.flatMap fun j => [.reserveWithTimeout 0, .destroy j.1])
            ++ [.reserveWithTimeout 0])⟩ := by
  intro jobs
  induction jobs with
  | nil =>
    intro any cmds
    simp [jobsToEvents, onceLoop, timedOutErr]
  | cons j jobs ih =>
    intro any cmds
    obtain ⟨ha, hr, _⟩ := runAndDestroy_allOk handlers testMode j.1 j.2 (.ok ()) (.ok ())
      (fun h hm => hok h hm (decodePayload j.2))
    simp only [jobsToEvents, List.map_cons, List.cons_append, onceLoop, hr, ha,
      List.append_eq]
    rw [show jobs.map (fun j => OnceEvent.reserveJob j.1 j.2 (.ok ()) (.ok ()))
        = jobsToEvents jobs from rfl]
    rw [ih true]
    simp

end Queue

/-! ## Claims -/

/-- Claim C1, counterexample: a transport error event firing before the
command callback rejects the request with the transport's own error (here
ECONNRESET), not with the canonical TIMED_OUT condition, so the claim
that a close or error always yields TIMED_OUT fails. -/
theorem c1_request_error_counterexample :
    Session.request (.ok 0) (.errored ⟨"ECONNRESET"⟩) = .error ⟨"ECONNRESET"⟩ ∧
    Err.mk "ECONNRESET" ≠ timedOutErr := ⟨rfl, by decide⟩

/-- Claim C1, amended: a transport close before the command callback
rejects the in-flight request with the canonical TIMED_OUT condition, but
a transport error event rejects it with that error itself, and a connect
failure rejects it with the connect error; broker-reported application
errors (e.g. NOT_FOUND) reject as themselves. -/
theorem c1_request_failure_semantics :
    (∀ c, Session.request (.ok c) .closed = .error timedOutErr) ∧
    (∀ c e, Session.request (.ok c) (.errored e) = .error e) ∧
    (∀ e ev, Session.request (.error e) ev = .error e) ∧
    (∀ c e, Session.request (.ok c) (.completed (.error e)) = .error e) :=
  ⟨fun _ => rfl, fun _ _ => rfl, fun _ _ => rfl, fun _ _ => rfl⟩

/-- Claim C2, counterexample: two overlapping connect attempts on the same
Session each open their own fivebeans client (two transports, ids 0 and
1) and the two callers end up with different handles, so the claim that
at most one connect attempt is in flight and all callers share one handle
fails. -/
theorem c2_overlapping_connects_counterexample :
    Session.twoOverlapping
      = (.done 0, .done 1, ⟨some 1, 2, [0, 1]⟩) ∧
    Session.CallerPC.done 0 ≠ Session.CallerPC.done 1 := ⟨rfl, by decide⟩

/-- Claim C2, amended: connect() collapses callers only through the stored
handle: while a client is stored, connect returns it immediately and
opens nothing, and two non-overlapping connect calls share one transport;
but the source has no in-flight-attempt state, so overlapping attempts
are not collapsed. -/
theorem c2_connect_reuse :
    (∀ s c, s.client = some c → Session.connectBegin s = (.done c, s)) ∧
    Session.twoSequential = (.done 0, .done 0, ⟨some 0, 1, [0]⟩) := by
  constructor
  · intro s c h
    unfold Session.connectBegin
    rw [h]
  · rfl

/-- Claim C2 witness: with a stored client 5, connectBegin returns it and
opens no new transport. -/
theorem c2_connect_reuse_witness :
    Session.connectBegin ⟨some 5, 6, [5]⟩ = (.done 5, ⟨some 5, 6, [5]⟩) :=
  c2_connect_reuse.1 ⟨some 5, 6, [5]⟩ 5 rfl

/-- Claim C3, counterexample: with a handler failing with the error boom
and the release request itself rejecting with TIMED_OUT (the connection
cut during release), _runAndDestroy does issue the release, but
propagates the release error, not the original handler failure — so the
claim that it issues release and then propagates the original failure is
false. -/
theorem c3_release_failure_counterexample :
    (Queue.runAndDestroy [fun _ => Except.error ⟨"boom"⟩] false 2 "q"
        (.ok ()) (.error timedOutErr)).commands = [.release 2 0 60] ∧
    (Queue.runAndDestroy [fun _ => Except.error ⟨"boom"⟩] false 2 "q"
        (.ok ()) (.error timedOutErr)).result = .error timedOutErr ∧
    Err.mk "TIMED_OUT" ≠ Err.mk "boom" := ⟨rfl, rfl, by decide⟩

/-- Claim C3, amended: when the handlers before index k succeed and
handler k fails with error e, _runAndDestroy issues exactly one
release(jobID, 0, delay) with delay 0 in test mode and RELEASE_DELAY in
seconds (60) otherwise, and runs exactly k+1 handlers (aborting the
rest); if the release request succeeds the original error e is
propagated to the caller, but if the release request itself fails, that
release error is propagated instead. -/
theorem c3_handler_failure_release
    (pre post : List (Decoded → Except Err Unit)) (hFail : Decoded → Except Err Unit)
    (e : Err) (testMode : Bool) (jobID : Nat) (payload : String)
    (destroyR releaseR : Except Err Unit)
    (hpre : ∀ h ∈ pre, h (decodePayload payload) = .ok ())
    (hf : hFail (decodePayload payload) = .error e) :
    Queue.runAndDestroy (pre ++ hFail :: post) testMode jobID payload destroyR releaseR
      = ⟨[.release jobID 0 (if testMode then 0 else 60)], pre.length + 1,
          [(.info, "processing"), (.debug, "payload"), (.info, "error-processing")],
          match releaseR with
          | .ok _ => .error e
          | .error re => .error re⟩ := by
  have h := Queue.runHandlers_firstFail (decodePayload payload) e hFail hf post pre hpre 0
  cases releaseR <;>
    simp [Queue.runAndDestroy, h, Queue.releaseDelaySeconds, Queue.RELEASE_DELAY]

/-- Claim C3 witness: two surrounding succeeding handlers, the middle one
failing, in test mode — once with the release request succeeding (the
original error propagates) and once with it failing (the release error
propagates). -/
theorem c3_handler_failure_release_witness :
    Queue.runAndDestroy
        ([fun _ => Except.ok ()] ++ (fun _ => Except.error ⟨"boom"⟩) :: [fun _ => Except.ok ()])
        true 3 "x" (.ok ()) (.ok ())
      = ⟨[.release 3 0 0], 2,
          [(.info, "processing"), (.debug, "payload"), (.info, "error-processing")],
          .error ⟨"boom"⟩⟩ ∧
    Queue.runAndDestroy
        ([fun _ => Except.ok ()] ++ (fun _ => Except.error ⟨"boom"⟩) :: [fun _ => Except.ok ()])
        true 3 "x" (.ok ()) (.error ⟨"ECONNRESET"⟩)
      = ⟨[.release 3 0 0], 2,
          [(.info, "processing"), (.debug, "payload"), (.info, "error-processing")],
          .error ⟨"ECONNRESET"⟩⟩ := by
  constructor
  · have h := c3_handler_failure_release [fun _ => Except.ok ()] [fun _ => Except.ok ()]
      (fun _ => Except.error ⟨"boom"⟩) ⟨"boom"⟩ true 3 "x" (.ok ()) (.ok ())
      (by intro g hg; simp at hg; subst hg; rfl) rfl
    simpa using h
  · have h := c3_handler_failure_release [fun _ => Except.ok ()] [fun _ => Except.ok ()]
      (fun _ => Except.error ⟨"boom"⟩) ⟨"boom"⟩ true 3 "x" (.ok ())
      (.error ⟨"ECONNRESET"⟩) (by intro g hg; simp at hg; subst hg; rfl) rfl
    simpa using h

/-- Claim C4, counterexample: an iteration whose reservation succeeds but
whose run-and-acknowledge step fails with the TIMED_OUT condition (which
the code reaches when the release request is cut off by a connection
close) is neither logged nor backed off, contradicting the claim that
every processing failure logs the error and triggers one backoff. -/
theorem c4_silent_processing_timeout_counterexample :
    (Queue.runAndDestroy [fun _ => Except.error ⟨"boom"⟩] false 1 "p"
        (.ok ()) (.error timedOutErr)).result = .error timedOutErr ∧
    Queue.processIteration false (.reserveOk 1 "p" (.error timedOutErr))
      = ⟨false, []⟩ := ⟨rfl, rfl⟩

/-- Claim C4, amended: the continuous loop discriminates only on the error
condition, not on the phase: any iteration failure (reservation or
processing) with the TIMED_OUT condition is silently ignored with no
backoff, while any failure with a different condition logs the error and
triggers exactly one backoff pause of RESERVE_BACKOFF ms (0 in test
mode); a successful iteration logs no error and pauses nowhere. -/
theorem c4_backoff_policy :
    (∀ testMode e, Queue.processIteration testMode (.reserveFail e)
        = if e.msg = "TIMED_OUT" then ⟨false, []⟩
          else ⟨true, [if testMode then 0 else Queue.RESERVE_BACKOFF]⟩) ∧
    (∀ testMode jid p e, Queue.processIteration testMode (.reserveOk jid p (.error e))
        = if e.msg = "TIMED_OUT" then ⟨false, []⟩
          else ⟨true, [if testMode then 0 else Queue.RESERVE_BACKOFF]⟩) ∧
    (∀ testMode jid p, Queue.processIteration testMode (.reserveOk jid p (.ok ()))
        = ⟨false, []⟩) :=
  ⟨fun _ _ => rfl, fun _ _ _ _ => rfl, fun _ _ _ => rfl⟩

/-- Claim C5, counterexample: with no registered handlers, once() returns
false immediately without issuing a single reserve_with_timeout command,
even though the broker (script) has a job to hand out — contradicting the
claim that a non-processing once() always reserves until the idle
timeout. -/
theorem c5_no_handlers_counterexample :
    Queue.once false [] false [.reserveJob 1 "p" (.ok ()) (.ok ())]
      = ⟨.value false, []⟩ := rfl

/-- Claim C5, amended: once() throws if continuously processing; with no
handlers it returns false immediately, issuing no broker command;
otherwise it repeatedly issues reserve_with_timeout 0 and
runs-and-acknowledges each job until a reservation fails with the idle
TIMED_OUT condition, returning whether any job was processed, and any
non-idle error is surfaced. -/
theorem c5_once_behavior :
    (∀ handlers testMode script,
        Queue.once true handlers testMode script
          = ⟨.assertThrow "Cannot call once while continuously processing jobs", []⟩) ∧
    (∀ testMode script, Queue.once false [] testMode script = ⟨.value false, []⟩) ∧
    (∀ handlers testMode (_hne : handlers ≠ [])
        (_hok : ∀ h ∈ handlers, ∀ d, h d = .ok ()) (jobs : List (Nat × String)),
        Queue.once false handlers testMode
            (Queue.jobsToEvents jobs ++ [.reserveFail timedOutErr])
          = ⟨.value (!jobs.isEmpty),
              (jobs.flatMap fun j => [.reserveWithTimeout 0, .destroy j.1])
                ++ [.reserveWithTimeout 0]⟩) ∧
    (∀ handlers testMode e rest (_hne : handlers ≠ [])
        (_hmsg : ¬ e.msg = "TIMED_OUT"),
        Queue.once false handlers testMode (.reserveFail e :: rest)
          = ⟨.err e, [.reserveWithTimeout 0]⟩) := by
  refine ⟨fun _ _ _ => rfl, fun _ _ => rfl, ?_, ?_⟩
  · intro handlers testMode hne hok jobs
    have hemp : handlers.isEmpty = false := by
      cases handlers with
      | nil => exact absurd rfl hne
      | cons h hs => rfl
    simp only [Queue.once, if_neg (by simp : ¬ (false : Bool) = true), hemp]
    rw [Queue.onceLoop_allOk handlers testMode hok jobs false []]
    simp
  · intro handlers testMode e rest hne hmsg
    have hemp : handlers.isEmpty = false := by
      cases handlers with
      | nil => exact absurd rfl hne
      | cons h hs => rfl
    simp [Queue.once, Queue.onceLoop, hemp, hmsg]

/-- Claim C5 witness: one always-succeeding handler; a script with one job
then the idle timeout drains and acknowledges the job; a script failing
with a non-idle error surfaces it. -/
theorem c5_once_behavior_witness :
    Queue.once false [fun _ => Except.ok ()] true
        (Queue.jobsToEvents [(7, "x")] ++ [.reserveFail timedOutErr])
      = ⟨.value true, [.reserveWithTimeout 0, .destroy 7, .reserveWithTimeout 0]⟩ ∧
    Queue.once false [fun _ => Except.ok ()] true [.reserveFail ⟨"boom"⟩]
      = ⟨.err ⟨"boom"⟩, [.reserveWithTimeout 0]⟩ := by
  constructor
  · have h := c5_once_behavior.2.2.1 [fun _ => Except.ok ()] true (by simp)
      (by intro g hg d; simp at hg; subst hg; rfl) [(7, "x")]
    simpa using h
  · exact c5_once_behavior.2.2.2 [fun _ => Except.ok ()] true ⟨"boom"⟩ []
      (by simp) (by simp)

/-- Claim C6: for a truthy job, push issues exactly one put with priority
0, delay 0, ttr 601 (the 10-minute processing deadline in seconds, floor,
plus one) and the JSON serialization of the job, and the value it
resolves with is independent of the broker-assigned job id. -/
theorem c6_push_put_command (job : JsValue) (h : truthy job = true) (jid jid2 : Nat) :
    Queue.push job (.ok jid) = ⟨[.put 0 0 601 (jsStringify job)], .resolved⟩ ∧
    Queue.push job (.ok jid) = Queue.push job (.ok jid2) := by
  constructor
  · unfold Queue.push
    rw [if_pos h]
    rfl
  · unfold Queue.push
    rw [if_pos h]

/-- Claim C6 witness: pushing the JSON string value a. -/
theorem c6_push_put_command_witness :
    Queue.push (.objv (.str "a")) (.ok 7)
      = ⟨[.put 0 0 601 (jsStringify (.objv (.str "a")))], .resolved⟩ ∧
    Queue.push (.objv (.str "a")) (.ok 7) = Queue.push (.objv (.str "a")) (.ok 8) :=
  c6_push_put_command (.objv (.str "a")) rfl 7 8

/-- Claim C7: a structured JSON value pushed through push is decoded back
to an equal value by the run-and-acknowledge payload decoding (the
round-trip through JSON.stringify and JSON.parse is the identity), and a
payload that does not parse as JSON is handed to the handlers as the raw
text unchanged. -/
theorem c7_payload_roundtrip (v : Json) (p : String) :
    decodePayload (jsStringify (.objv v)) = .json v ∧
    (jsonParse p = none → decodePayload p = .text p) := by
  constructor
  · show decodePayload (jsonStringify v) = .json v
    unfold decodePayload
    rw [jsonParse_stringify]
  · intro h
    unfold decodePayload
    rw [h]

/-- Claim C7 witness: the array of the string a and null round-trips, and
the unparseable payload x is passed through as text. -/
theorem c7_payload_roundtrip_witness :
    decodePayload (jsStringify (.objv (.arr (.cons (.str "a") (.cons .null .nil)))))
      = .json (.arr (.cons (.str "a") (.cons .null .nil))) ∧
    decodePayload "x" = .text "x" :=
  ⟨(c7_payload_roundtrip (.arr (.cons (.str "a") (.cons .null .nil))) "x").1,
    (c7_payload_roundtrip (.arr (.cons (.str "a") (.cons .null .nil))) "x").2 rfl⟩

/-- Claim C8, counterexample: when the transport-level connect fails, the
connect generator ends the new transport but is never resumed, so the
caller observes no result at all — the failure is not propagated, against
the claim that any failure during connect ends the transport AND
propagates the failure. -/
theorem c8_connect_failure_hangs_counterexample :
    Session.connect none 7 (.error ⟨"ECONNREFUSED"⟩) false (.ok ()) (.ok ())
      = ⟨.hang, none, true, true⟩ ∧
    (∀ e, Session.ConnectResult.hang ≠ .err e) :=
  ⟨rfl, fun _ h => Session.ConnectResult.noConfusion h⟩

/-- Claim C8, amended: connect() is idempotent while a handle is stored
(no new transport); an authenticate or setup failure ends the new
transport and propagates the failure with the stored handle left unset; a
transport-level connect failure ends the new transport and leaves the
handle unset but never settles (nothing is propagated); only a fully
set-up client is ever stored. -/
theorem c8_connect_lifecycle :
    (∀ c fresh tc auth ar sr,
        Session.connect (some c) fresh tc auth ar sr = ⟨.ok c, some c, false, false⟩) ∧
    (∀ fresh e auth ar sr,
        Session.connect none fresh (.error e) auth ar sr = ⟨.hang, none, true, true⟩) ∧
    (∀ fresh e sr,
        Session.connect none fresh (.ok ()) true (.error e) sr
          = ⟨.err e, none, true, true⟩) ∧
    (∀ fresh auth ar e,
        Session.connect none fresh (.ok ()) auth (if auth then .ok () else ar) (.error e)
          = ⟨.err e, none, true, true⟩) ∧
    (∀ fresh auth ar,
        Session.connect none fresh (.ok ()) auth (if auth then .ok () else ar) (.ok ())
          = ⟨.ok fresh, some fresh, true, false⟩) := by
  refine ⟨fun _ _ _ _ _ _ => rfl, fun _ _ _ _ _ => rfl, fun _ _ _ => rfl, ?_, ?_⟩
  · intro fresh auth ar e
    cases auth <;> rfl
  · intro fresh auth ar
    cases auth <;> rfl

/-- Claim C9: when every handler succeeds, _runAndDestroy issues exactly
destroy(jobID) (never a release) and returns success; if the destroy
request itself fails the failure is logged at info level and swallowed —
the outcome is still success. -/
theorem c9_destroy_failure_swallowed
    (handlers : List (Decoded → Except Err Unit)) (testMode : Bool) (jobID : Nat)
    (payload : String) (destroyR releaseR : Except Err Unit)
    (hall : ∀ h ∈ handlers, h (decodePayload payload) = .ok ()) :
    (Queue.runAndDestroy handlers testMode jobID payload destroyR releaseR).commands
        = [.destroy jobID] ∧
    (Queue.runAndDestroy handlers testMode jobID payload destroyR releaseR).result
        = .ok () ∧
    (∀ d, destroyR = .error d →
      (Queue.LogLevel.info, "could-not-delete")
        ∈ (Queue.runAndDestroy handlers testMode jobID payload destroyR releaseR).logs) := by
  have h := Queue.runHandlers_allOk (decodePayload payload) handlers hall 0
  refine ⟨?_, ?_, ?_⟩ <;> cases destroyR <;> simp [Queue.runAndDestroy, h]

/-- Claim C9 witness: one succeeding handler, destroy failing with
NOT_FOUND. -/
theorem c9_destroy_failure_swallowed_witness :
    (Queue.runAndDestroy [fun _ => Except.ok ()] false 4 "y"
        (.error ⟨"NOT_FOUND"⟩) (.ok ())).commands = [.destroy 4] ∧
    (Queue.runAndDestroy [fun _ => Except.ok ()] false 4 "y"
        (.error ⟨"NOT_FOUND"⟩) (.ok ())).result = .ok () ∧
    (Queue.LogLevel.info, "could-not-delete")
      ∈ (Queue.runAndDestroy [fun _ => Except.ok ()] false 4 "y"
          (.error ⟨"NOT_FOUND"⟩) (.ok ())).logs := by
  have h := c9_destroy_failure_swallowed [fun _ => Except.ok ()] false 4 "y"
    (.error ⟨"NOT_FOUND"⟩) (.ok ()) (by intro g hg; simp at hg; subst hg; rfl)
  exact ⟨h.1, h.2.1, h.2.2 ⟨"NOT_FOUND"⟩ rfl⟩

/-- Claim C10: push throws the assertion error Missing job to queue for
every falsy job — undefined, null, false, 0, the empty string, NaN —
before issuing any broker command, regardless of what the put request
would have returned. -/
theorem c10_falsy_push_assertion (putR : Except Err Nat) :
    Queue.push .undef putR = ⟨[], .assertThrow "Missing job to queue"⟩ ∧
    Queue.push .nullv putR = ⟨[], .assertThrow "Missing job to queue"⟩ ∧
    Queue.push (.boolv false) putR = ⟨[], .assertThrow "Missing job to queue"⟩ ∧
    Queue.push (.numv 0) putR = ⟨[], .assertThrow "Missing job to queue"⟩ ∧
    Queue.push (.strv "") putR = ⟨[], .assertThrow "Missing job to queue"⟩ ∧
    Queue.push .nanv putR = ⟨[], .assertThrow "Missing job to queue"⟩ :=
  ⟨rfl, rfl, rfl, rfl, rfl, rfl⟩

end Ironium
